import Mathlib

/-!
# Verification of the trial-sequencing engine (`data/TrialHandler.js`)

A shallow embedding of the `TrialHandler` class of the repository: the trial
list preparation, the sequence builder (`_prepareSequence`), the iterator
(`[Symbol.iterator]().next`), the lookup helpers (`getTrial`,
`getFutureTrial`, `getEarlierTrial`), the snapshot machinery (`getSnapshot`,
`fromSnapshot`, the `finished` setter), together with proofs and refutations
of the specification's claims about them.

Conventions of the embedding:
* JS objects holding trial data are association lists in property-insertion
  order (`Trial`); a trial-list slot may hold `undefined` (`TrialEntry`).
* JS numbers occurring in the engine are integers; counters that the source
  drives below zero are `Int`.
* Reading an absent property yields `undefined` (`JSVal.undef`); reads of a
  JS array cell outside its bounds yield the stated defaults only on paths
  that are unreachable for states built by the embedded operations (the
  source would throw there), as noted next to each helper.
* The iterator's `{done: true}` result is `none`; `{value: v, done: false}`
  is `some v`.
* Effects are explicit: mutation is state passing, the logger is a returned
  list of warning strings, and thrown exceptions are `Except.error`.
-/

/-- A JavaScript value, restricted to the shapes the trial-sequencing engine
actually stores and moves around: `undefined`, `null`, booleans, (integer)
numbers, strings, and arrays of strings (the `trialAttributes` array). -/
inductive JSVal where
  | undef : JSVal
  | nullv : JSVal
  | bool : Bool → JSVal
  | num : Int → JSVal
  | str : String → JSVal
  | strArr : List String → JSVal
deriving Repr, DecidableEq

/-- A trial record: a JS object as an association list of its own enumerable
properties, in insertion order (the order `for...in` visits them). -/
abbrev Trial := List (String × JSVal)

/-- A slot of the trial list: either a record or JS `undefined`
(the constructor's default trial list is `[undefined]`). -/
abbrev TrialEntry := Option Trial

/-- The value of the `thisTrial` field: `null` (constructor and exhaustion),
`undefined` (an undefined trial-list slot), or a trial record. -/
inductive TrialRef where
  | null : TrialRef
  | undef : TrialRef
  | obj : Trial → TrialRef
deriving Repr, DecidableEq

/-- Coerce a trial-list slot to the value stored in `thisTrial`. -/
def TrialRef.ofEntry : TrialEntry → TrialRef
  | none => .undef
  | some t => .obj t

/-- `TrialHandler.Method`: `SEQUENTIAL`, `RANDOM`, `FULL_RANDOM`
(the source's `FULLRANDOM` is an alias for the same symbol). -/
inductive Method where
  | sequential : Method
  | random : Method
  | fullRandom : Method
deriving Repr, DecidableEq

/-- A snapshot object, modelled as a genuine JS object: an association list
of properties in insertion order.  The `handler` back-reference and the three
captured closures (`getCurrentTrial`, `getTrial`, `addData`) are not data and
are modelled at their use sites (`fromSnapshot` receives the handler
explicitly). -/
abbrev SnapObj := List (String × JSVal)

/-- JS property read: the first binding of the key, `undefined` if absent. -/
def jsGet (o : SnapObj) (k : String) : JSVal :=
  match o.find? (fun p => p.1 = k) with
  | some p => p.2
  | none => JSVal.undef

/-- JS property write: update the binding in place if the key is present
(property order is unchanged by updates), otherwise append it. -/
def jsSet (o : SnapObj) (k : String) (v : JSVal) : SnapObj :=
  if o.any (fun p => p.1 = k) then
    o.map (fun p => if p.1 = k then (k, v) else p)
  else
    o ++ [(k, v)]

/-- JS array read of a trial-list cell at a possibly negative index:
a negative or out-of-bounds index yields `undefined` (`none`). -/
def jsIdxEntry (l : List TrialEntry) (i : Int) : TrialEntry :=
  if i < 0 then none else l.getD i.toNat none

/-- JS array read of a row of the trial-sequence matrix.  The `[]` default
stands for the `undefined` row JS would produce; for states built by the
embedded operations the index is always in bounds. -/
def jsIdxRow (m : List (List Nat)) (i : Int) : List Nat :=
  if i < 0 then [] else m.getD i.toNat []

/-- JS array read of a cell of a trial-sequence row.  The `0` default is
unreachable for states built by the embedded operations. -/
def jsIdxNat (l : List Nat) (i : Int) : Nat :=
  if i < 0 then 0 else l.getD i.toNat 0

/-- One swap of the in-place Fisher–Yates shuffle: exchange the elements at
positions `i` and `j` (a no-op when either index is out of bounds, which the
shuffle never produces). -/
def fySwap (l : List α) (i j : Nat) : List α :=
  match l.get? i, l.get? j with
  | some a, some b => (l.set i b).set j a
  | _, _ => l

/-- Modelled from the spec: the driver loop of `util.shuffle`, which is not
part of the source set (only its call sites in `_prepareSequence` are).
Spec §4.1: "for index `i` from `length-1` down to `1`, draw
`j = floor(rng.next() * (i+1))`, swap elements at `i` and `j`".
`i` counts the remaining loop iterations, so the current index is `i`
itself on entry with `i = length-1`; `k` is the position in the stream of
draws. -/
def fyLoop (draws : Nat → Nat) : Nat → Nat → List α → List α
  | _, 0, l => l
  | k, i + 1, l => fyLoop draws (k + 1) i (fySwap l (i + 1) (draws k % (i + 2)))

/-- Modelled from the spec: `util.shuffle`, the in-place Fisher–Yates shuffle
of spec §4.1, with the injected random source modelled as a stream of
naturals; the draw for position `i+1` is taken modulo `i+2`, which ranges
over exactly the values `floor(rng.next() * (i+2))` can take for a float in
`[0, 1)`. -/
def fisherYates (l : List α) (draws : Nat → Nat) : List α :=
  fyLoop draws 0 (l.length - 1) l

/-- `TrialHandler._prepareTrialList`, restricted to the array and undefined
inputs (a string input delegates to the out-of-scope spreadsheet importer):
an undefined or empty trial list becomes the one-element list `[undefined]`;
a non-empty array is kept as is. -/
def prepareTrialList (trialList : Option (List TrialEntry)) : List TrialEntry :=
  match trialList with
  | none => [none]
  | some l => if l.isEmpty then [none] else l

/-- `TrialHandler._prepareSequence`: build the `nReps × nStim` matrix of
trial indices.  `SEQUENTIAL` repeats the identity row; `RANDOM` shuffles the
index row once per repetition, consuming the random stream row after row
(each shuffle of a length-`n` row consumes `n - 1` draws); `FULL_RANDOM`
concatenates `nReps` copies of the index row, shuffles the flat sequence
once, and slices it back into `nReps` rows of `nStim`
(`flatSequence.slice(i*nStim, (i+1)*nStim)`). -/
def prepareSequence (method : Method) (nStim nReps : Nat) (draws : Nat → Nat) :
    List (List Nat) :=
  let indices := List.range nStim
  match method with
  | .sequential => List.replicate nReps indices
  | .random =>
      (List.range nReps).map
        (fun i => fisherYates indices (fun k => draws (i * (nStim - 1) + k)))
  | .fullRandom =>
      let flatSequence := (List.replicate nReps indices).flatten
      let shuffled := fisherYates flatSequence draws
      (List.range nReps).map (fun i => (shuffled.drop (i * nStim)).take nStim)

/-- The mutable state of a `TrialHandler`.  `finishedV` is the `_finished`
field, kept as a JS value because `fromSnapshot` drives it to `undefined`;
`extraProps` holds the dynamic properties that `fromSnapshot` writes onto the
handler object (`snapshot.handler[attribute] = ...`); the experiment-handler
back-reference and `addData` pass-through are out-of-scope I/O and omitted. -/
structure TrialHandler where
  trialList : List TrialEntry
  nReps : Nat
  method : Method
  name : JSVal
  nStim : Nat
  nTotal : Nat
  nRemaining : Int
  thisRepN : Int
  thisTrialN : Int
  thisN : Int
  thisIndex : Int
  ran : Int
  order : Int
  trialSequence : List (List Nat)
  snapshots : List SnapObj
  thisTrial : TrialRef
  finishedV : JSVal
  extraProps : List (String × JSVal)
deriving Repr, DecidableEq

/-- The `TrialHandler` constructor: prepare the trial list, derive the
counters (`nStim`, `nTotal = nReps * nStim`, `nRemaining = nTotal`,
`thisRepN = 0`, `thisTrialN = -1`, `thisN = -1`, `thisIndex = 0`, `ran = 0`,
`order = -1`), build the trial sequence, and start with no snapshots,
`thisTrial = null` and `_finished = false`.  The injected seeded random
source is modelled as the stream `draws` (it is consumed only while building
the sequence). -/
def mkTrialHandler (trialList : List TrialEntry) (nReps : Nat) (method : Method)
    (draws : Nat → Nat) (name : JSVal := .undef) : TrialHandler :=
  let tl := prepareTrialList (some trialList)
  let nStim := tl.length
  { trialList := tl
    nReps := nReps
    method := method
    name := name
    nStim := nStim
    nTotal := nReps * nStim
    nRemaining := (nReps * nStim : Nat)
    thisRepN := 0
    thisTrialN := -1
    thisN := -1
    thisIndex := 0
    ran := 0
    order := -1
    trialSequence := prepareSequence method nStim nReps draws
    snapshots := []
    thisTrial := .null
    finishedV := .bool false
    extraProps := [] }

/-- One call of the iterator returned by `TrialHandler[Symbol.iterator]`:
increment `thisTrialN` and `thisN` and decrement `nRemaining`; wrap into a
new repetition when `thisTrialN === nStim`; if `thisRepN >= nReps` set
`thisTrial = null` and report `{done: true}` (`none`); otherwise look up
`thisIndex` in the trial-sequence matrix, fetch the trial record, set
`ran = 1` and `order = thisN`, and yield the record. -/
def iterNext (h : TrialHandler) : TrialHandler × Option TrialRef :=
  let h1 := { h with
    thisTrialN := h.thisTrialN + 1
    thisN := h.thisN + 1
    nRemaining := h.nRemaining - 1 }
  let h2 :=
    if h1.thisTrialN = (h1.nStim : Int) then
      { h1 with thisTrialN := 0, thisRepN := h1.thisRepN + 1 }
    else h1
  if (h2.nReps : Int) ≤ h2.thisRepN then
    ({ h2 with thisTrial := .null }, none)
  else
    let idx := jsIdxNat (jsIdxRow h2.trialSequence h2.thisRepN) h2.thisTrialN
    let t := jsIdxEntry h2.trialList (idx : Int)
    ({ h2 with
        thisIndex := (idx : Int)
        thisTrial := .ofEntry t
        ran := 1
        order := h2.thisN }, some (.ofEntry t))

/-- The handler state after `k` calls to the iterator. -/
def iterN (h : TrialHandler) : Nat → TrialHandler
  | 0 => h
  | k + 1 => (iterNext (iterN h k)).1

/-- The spec's `completedCount`: the number of advances performed so far.
The source keeps the 0-based index of the current trial in `thisN`
(initialised to `-1`), so the count of completed advances is `thisN + 1`. -/
def completedCount (h : TrialHandler) : Int :=
  h.thisN + 1

/-- `TrialHandler.getCurrentTrial`: `this.trialList[this.thisIndex]`. -/
def getCurrentTrial (h : TrialHandler) : TrialEntry :=
  jsIdxEntry h.trialList h.thisIndex

/-- `TrialHandler.getTrial`: `undefined` when `index < 0 || index > nTotal`
(note the upper bound is `nTotal`, inclusive), otherwise
`this.trialList[index]` — itself `undefined` beyond the list's length. -/
def getTrial (h : TrialHandler) (index : Int) : TrialEntry :=
  if index < 0 ∨ (h.nTotal : Int) < index then none
  else jsIdxEntry h.trialList index

/-- `TrialHandler.getFutureTrial`: `undefined` when
`thisIndex + n < 0 || n > nRemaining`, otherwise
`this.trialList[this.thisIndex + n]`. -/
def getFutureTrial (h : TrialHandler) (n : Int) : TrialEntry :=
  if h.thisIndex + n < 0 ∨ h.nRemaining < n then none
  else jsIdxEntry h.trialList (h.thisIndex + n)

/-- `TrialHandler.getEarlierTrial`: the source body is
`return getFutureTrial(-abs(n));`, in which both `getFutureTrial` and `abs`
are unbound free identifiers (neither is `this.`-qualified and no
module-scope binding exists), so every call throws a `ReferenceError`. -/
def getEarlierTrial (_h : TrialHandler) (_n : Int) : Except String TrialEntry :=
  .error "ReferenceError: getFutureTrial is not defined"

/-- The source's `excludedAttributes` array: the engine-reserved counter
names that a trial record's own fields are meant not to overwrite. -/
def excludedAttributes : List String :=
  ["handler", "name", "nStim", "nRemaining", "thisRepN", "thisTrialN",
   "thisN", "thisIndex", "ran", "finished"]

/-- The test the source actually performs, `attribute in excludedAttributes`:
the JS `in` operator on an array tests property KEYS of the array object —
the index strings `"0"`..`"9"` (the array has length 10) and `"length"` —
not membership among the array's VALUES.  (Inherited `Array.prototype`
method names would also pass; no trial-field name of interest is one, and we
model own keys only.) -/
def inKeysOfExcludedAttributes (attr : String) : Bool :=
  attr ∈ ["0", "1", "2", "3", "4", "5", "6", "7", "8", "9", "length"]

/-- The warning `getSnapshot` logs for an attribute that fails the test. -/
def protectedWarn (attr : String) : String :=
  "attempt to replace the value of protected TrialHandler variable: " ++ attr

/-- The `for (const attribute in currentTrial)` loop of `getSnapshot`: for
each field, either log the warning (when `attribute in excludedAttributes`
holds) or copy the field onto the snapshot and record it in
`trialAttributes`; in both cases (re)assign the `trialAttributes` property —
so the property exists exactly when the loop ran at least once. -/
def captureLoop (snap : SnapObj) (attrs warns : List String) :
    Trial → SnapObj × List String × List String
  | [] => (snap, attrs, warns)
  | (k, v) :: rest =>
      if inKeysOfExcludedAttributes k then
        captureLoop (jsSet snap "trialAttributes" (.strArr attrs)) attrs
          (warns ++ [protectedWarn k]) rest
      else
        let snap1 := jsSet (jsSet snap k v) "trialAttributes" (.strArr (attrs ++ [k]))
        captureLoop snap1 (attrs ++ [k]) warns rest

/-- `TrialHandler.getSnapshot`: build the snapshot object from the scalar
counters in source order, run the attribute-copy loop over the current
trial's fields (zero iterations when the current trial is `undefined`), push
the snapshot onto `_snapshots`, and return it.  The result is the updated
handler, the snapshot, and the logged warnings. -/
def getSnapshot (h : TrialHandler) : TrialHandler × SnapObj × List String :=
  let base : SnapObj :=
    [("name", h.name),
     ("nStim", .num h.nStim),
     ("nTotal", .num h.nTotal),
     ("nRemaining", .num h.nRemaining),
     ("thisRepN", .num h.thisRepN),
     ("thisTrialN", .num h.thisTrialN),
     ("thisN", .num h.thisN),
     ("thisIndex", .num h.thisIndex),
     ("ran", .num h.ran),
     ("finished", h.finishedV)]
  let fields := (getCurrentTrial h).getD []
  let r := captureLoop base [] [] fields
  ({ h with snapshots := h.snapshots ++ [r.1] }, r.1, r.2.2)

/-- Read a snapshot property as the number the typed state stores.  The
source assigns the property's value back verbatim; a non-numeric value can
sit there only when a trial attribute overrode a scalar slot (the collision
the reserved-field analysis is about), and the embedding flags that case
instead of storing it. -/
def asNum : JSVal → Option Int
  | .num n => some n
  | _ => none

/-- Read a snapshot's `trialAttributes` property as a list of names. -/
def asStrArr : JSVal → Option (List String)
  | .strArr l => some l
  | _ => none

/-- `TrialHandler.fromSnapshot`: a guarded no-op on an undefined snapshot;
otherwise write every scalar property of the snapshot back onto the handler
— including `_finished`, a property the capture never stored (it stored the
flag under `finished`), so the read yields `undefined` — then re-resolve
`thisTrial` via the restored `thisIndex`, and re-apply every name listed in
`trialAttributes` onto the handler object (modelled by `extraProps`; a name
colliding with a real handler field would overwrite that field in JS, and
the theorems below assume names disjoint from them).  Iterating an absent
`trialAttributes` property throws a `TypeError`. -/
def fromSnapshot (snap : Option SnapObj) (h : TrialHandler) :
    Except String TrialHandler :=
  match snap with
  | none => .ok h
  | some s =>
      match asNum (jsGet s "nStim"), asNum (jsGet s "nTotal"),
            asNum (jsGet s "nRemaining"), asNum (jsGet s "thisRepN"),
            asNum (jsGet s "thisTrialN"), asNum (jsGet s "thisN"),
            asNum (jsGet s "thisIndex"), asNum (jsGet s "ran") with
      | some vStim, some vTotal, some vRemaining, some vRepN, some vTrialN,
        some vN, some vIndex, some vRan =>
          let h1 := { h with
            nStim := vStim.toNat
            nTotal := vTotal.toNat
            nRemaining := vRemaining
            thisRepN := vRepN
            thisTrialN := vTrialN
            thisN := vN
            thisIndex := vIndex
            ran := vRan
            finishedV := jsGet s "_finished" }
          let h2 := { h1 with thisTrial := .ofEntry (getCurrentTrial h1) }
          match asStrArr (jsGet s "trialAttributes") with
          | some attrs =>
              .ok { h2 with
                extraProps := attrs.foldl (fun ps a => jsSet ps a (jsGet s a)) h2.extraProps }
          | none => .error "TypeError: snapshot.trialAttributes is not iterable"
      | _, _, _, _, _, _, _, _ => .error "non-numeric counter in snapshot"

/-- The `finished` setter: store the flag and write it into the `finished`
property of every snapshot in `_snapshots` (the stored objects are the very
objects handed out to callers, so this propagates to them). -/
def setFinished (h : TrialHandler) (isFinished : Bool) : TrialHandler :=
  { h with
    finishedV := .bool isFinished
    snapshots := h.snapshots.map (fun snap => jsSet snap "finished" (.bool isFinished)) }

/-! ## Basic facts about the embedded operations -/

/-- A prepared trial list is never empty, so `nStim >= 1` for every handler
the constructor can build — an empty input is replaced by `[undefined]`. -/
theorem prepareTrialList_length_pos (o : Option (List TrialEntry)) :
    0 < (prepareTrialList o).length := by
  match o with
  | none => simp [prepareTrialList]
  | some l =>
      by_cases h : l.isEmpty
      · simp [prepareTrialList, h]
      · have : l ≠ [] := by simpa [List.isEmpty_iff] using h
        simp [prepareTrialList, h, List.length_pos.2 this]

theorem mkTrialHandler_nStim_pos (tl : List TrialEntry) (r : Nat) (m : Method)
    (d : Nat → Nat) (nm : JSVal) : 0 < (mkTrialHandler tl r m d nm).nStim :=
  prepareTrialList_length_pos _

/-- One iterator call touches only the cursor counters, `thisIndex`,
`thisTrial`, `ran` and `order`: the trial list, configuration, trial
sequence, snapshots, finished flag and dynamic properties are untouched. -/
theorem iterNext_frame (h : TrialHandler) :
    (iterNext h).1.trialList = h.trialList ∧
    (iterNext h).1.nReps = h.nReps ∧
    (iterNext h).1.method = h.method ∧
    (iterNext h).1.name = h.name ∧
    (iterNext h).1.nStim = h.nStim ∧
    (iterNext h).1.nTotal = h.nTotal ∧
    (iterNext h).1.trialSequence = h.trialSequence ∧
    (iterNext h).1.snapshots = h.snapshots ∧
    (iterNext h).1.finishedV = h.finishedV ∧
    (iterNext h).1.extraProps = h.extraProps := by
  unfold iterNext
  dsimp only
  split <;> split <;> simp

theorem iterN_frame (h : TrialHandler) (k : Nat) :
    (iterN h k).trialList = h.trialList ∧
    (iterN h k).nReps = h.nReps ∧
    (iterN h k).method = h.method ∧
    (iterN h k).name = h.name ∧
    (iterN h k).nStim = h.nStim ∧
    (iterN h k).nTotal = h.nTotal ∧
    (iterN h k).trialSequence = h.trialSequence ∧
    (iterN h k).snapshots = h.snapshots ∧
    (iterN h k).finishedV = h.finishedV ∧
    (iterN h k).extraProps = h.extraProps := by
  induction k with
  | zero => exact ⟨rfl, rfl, rfl, rfl, rfl, rfl, rfl, rfl, rfl, rfl⟩
  | succ k ih =>
      obtain ⟨e1, e2, e3, e4, e5, e6, e7, e8, e9, e10⟩ := ih
      obtain ⟨f1, f2, f3, f4, f5, f6, f7, f8, f9, f10⟩ := iterNext_frame (iterN h k)
      exact ⟨f1.trans e1, f2.trans e2, f3.trans e3, f4.trans e4, f5.trans e5,
        f6.trans e6, f7.trans e7, f8.trans e8, f9.trans e9, f10.trans e10⟩

/-- Every iterator call decrements `nRemaining` by exactly one and increments
`thisN` by exactly one, whether or not it produces a trial. -/
theorem iterNext_nRemaining (h : TrialHandler) :
    (iterNext h).1.nRemaining = h.nRemaining - 1 ∧
    (iterNext h).1.thisN = h.thisN + 1 := by
  unfold iterNext
  dsimp only
  split <;> split <;> simp

/-- Wrap-around arithmetic: when the per-repetition counter is about to hit
`s`, the successor position starts the next repetition. -/
theorem succ_mod_div_wrap (s k : Nat) (hs : 0 < s) (h : k % s + 1 = s) :
    (k + 1) % s = 0 ∧ (k + 1) / s = k / s + 1 := by
  have hk : s * (k / s) + k % s = k := Nat.div_add_mod k s
  have hk1 : k + 1 = s * (k / s + 1) := by
    have hm : s * (k / s + 1) = s * (k / s) + s := Nat.mul_succ s (k / s)
    omega
  constructor
  · rw [hk1, Nat.mul_mod_right]
  · rw [hk1, Nat.mul_comm s (k / s + 1), Nat.mul_div_cancel _ hs]

/-- Wrap-around arithmetic: otherwise the successor stays in the current
repetition. -/
theorem succ_mod_div_stay (s k : Nat) (hs : 0 < s) (h : k % s + 1 ≠ s) :
    (k + 1) % s = k % s + 1 ∧ (k + 1) / s = k / s := by
  have hlt : k % s < s := Nat.mod_lt _ hs
  have hlt1 : k % s + 1 < s := by omega
  have hk : k + 1 = s * (k / s) + (k % s + 1) := by
    have := Nat.div_add_mod k s
    omega
  constructor
  · rw [hk, Nat.mul_add_mod, Nat.mod_eq_of_lt hlt1]
  · rw [hk, Nat.mul_add_div hs, Nat.div_eq_of_lt hlt1, Nat.add_zero]

/-- Evaluate one iterator call from the state reached after at least one
call: if the cursor sits at overall position `k` (so `thisTrialN = k % s`,
`thisRepN = k / s`), the call moves it to position `k + 1` and yields the
trial at the sequence cell `(k+1)/s, (k+1)%s` — or the exhausted result when
`(k+1)/s` reaches `nReps`. -/
theorem iterNext_eval (h : TrialHandler) (s r k : Nat) (hs : 0 < s)
    (h1 : h.nStim = s) (h2 : h.nReps = r)
    (h3 : h.thisTrialN = ((k % s : Nat) : Int))
    (h4 : h.thisRepN = ((k / s : Nat) : Int)) :
    (iterNext h).1.thisTrialN = (((k + 1) % s : Nat) : Int) ∧
    (iterNext h).1.thisRepN = (((k + 1) / s : Nat) : Int) ∧
    (iterNext h).2 = (if (k + 1) / s < r then
        some (.ofEntry (jsIdxEntry h.trialList
          ((jsIdxNat (jsIdxRow h.trialSequence (((k + 1) / s : Nat) : Int))
            (((k + 1) % s : Nat) : Int)) : Int)))
      else none) := by
  unfold iterNext
  dsimp only
  rw [h1, h2, h3, h4]
  by_cases hw : k % s + 1 = s
  · obtain ⟨hm, hd⟩ := succ_mod_div_wrap s k hs hw
    rw [if_pos (show ((k % s : Nat) : Int) + 1 = ((s : Nat) : Int) by push_cast; omega)]
    dsimp only
    by_cases hr : r ≤ k / s + 1
    · rw [if_pos (show ((r : Nat) : Int) ≤ ((k / s : Nat) : Int) + 1 by push_cast; omega),
        if_neg (show ¬ (k + 1) / s < r by omega)]
      simp [hm, hd]
    · rw [if_neg (show ¬ ((r : Nat) : Int) ≤ ((k / s : Nat) : Int) + 1 by push_cast; omega),
        if_pos (show (k + 1) / s < r by omega)]
      simp [hm, hd]
  · obtain ⟨hm, hd⟩ := succ_mod_div_stay s k hs hw
    have hmlt : k % s < s := Nat.mod_lt _ hs
    rw [if_neg (show ¬ ((k % s : Nat) : Int) + 1 = ((s : Nat) : Int) by push_cast; omega)]
    dsimp only
    by_cases hr : r ≤ k / s
    · rw [if_pos (show ((r : Nat) : Int) ≤ ((k / s : Nat) : Int) by push_cast; omega),
        if_neg (show ¬ (k + 1) / s < r by omega)]
      simp [hm, hd]
    · rw [if_neg (show ¬ ((r : Nat) : Int) ≤ ((k / s : Nat) : Int) by push_cast; omega),
        if_pos (show (k + 1) / s < r by omega)]
      simp [hm, hd]

/-- Evaluate the first iterator call, from the constructor's initial state
(`thisTrialN = -1`, `thisRepN = 0`). -/
theorem iterNext_eval_fresh (h : TrialHandler) (s r : Nat) (hs : 0 < s)
    (h1 : h.nStim = s) (h2 : h.nReps = r)
    (h3 : h.thisTrialN = -1) (h4 : h.thisRepN = 0) :
    (iterNext h).1.thisTrialN = ((0 % s : Nat) : Int) ∧
    (iterNext h).1.thisRepN = ((0 / s : Nat) : Int) ∧
    (iterNext h).2 = (if 0 / s < r then
        some (.ofEntry (jsIdxEntry h.trialList
          ((jsIdxNat (jsIdxRow h.trialSequence ((0 / s : Nat) : Int))
            ((0 % s : Nat) : Int)) : Int)))
      else none) := by
  unfold iterNext
  dsimp only
  rw [h1, h2, h3, h4]
  rw [if_neg (show ¬ (-1 : Int) + 1 = ((s : Nat) : Int) by omega)]
  dsimp only
  rw [Nat.zero_mod, Nat.zero_div]
  by_cases hr : r = 0
  · rw [if_pos (show ((r : Nat) : Int) ≤ 0 by omega),
      if_neg (show ¬ 0 < r by omega)]
    simp
  · rw [if_neg (show ¬ ((r : Nat) : Int) ≤ 0 by omega),
      if_pos (show 0 < r by omega)]
    simp

/-- The cursor's trajectory, for every constructed handler: after `k + 1`
iterator calls the cursor sits at overall position `k`
(`thisTrialN = k % nStim`, `thisRepN = k / nStim`, `thisN = k`,
`nRemaining = nReps * nStim - (k + 1)`), and the `(k + 1)`-th call yielded
the trial at sequence cell `(k/nStim, k%nStim)` if `k / nStim < nReps` and
the exhausted result otherwise. -/
theorem iterN_state (tl : List TrialEntry) (r : Nat) (m : Method) (d : Nat → Nat)
    (nm : JSVal) (k : Nat) :
    (iterN (mkTrialHandler tl r m d nm) (k + 1)).thisTrialN
        = ((k % (mkTrialHandler tl r m d nm).nStim : Nat) : Int) ∧
    (iterN (mkTrialHandler tl r m d nm) (k + 1)).thisRepN
        = ((k / (mkTrialHandler tl r m d nm).nStim : Nat) : Int) ∧
    (iterN (mkTrialHandler tl r m d nm) (k + 1)).thisN = (k : Int) ∧
    (iterN (mkTrialHandler tl r m d nm) (k + 1)).nRemaining
        = (r * (mkTrialHandler tl r m d nm).nStim : Int) - (k + 1) ∧
    (iterNext (iterN (mkTrialHandler tl r m d nm) k)).2
        = (if k / (mkTrialHandler tl r m d nm).nStim < r then
            some (.ofEntry (jsIdxEntry (mkTrialHandler tl r m d nm).trialList
              ((jsIdxNat (jsIdxRow (mkTrialHandler tl r m d nm).trialSequence
                ((k / (mkTrialHandler tl r m d nm).nStim : Nat) : Int))
                ((k % (mkTrialHandler tl r m d nm).nStim : Nat) : Int)) : Int)))
          else none) := by
  have hs : 0 < (mkTrialHandler tl r m d nm).nStim := mkTrialHandler_nStim_pos tl r m d nm
  induction k with
  | zero =>
      obtain ⟨e1, e2, e3⟩ := iterNext_eval_fresh (mkTrialHandler tl r m d nm)
        (mkTrialHandler tl r m d nm).nStim r hs rfl rfl rfl rfl
      obtain ⟨en, et⟩ := iterNext_nRemaining (mkTrialHandler tl r m d nm)
      refine ⟨e1, e2, ?_, ?_, e3⟩
      · rw [show (iterN (mkTrialHandler tl r m d nm) 1) = (iterNext (mkTrialHandler tl r m d nm)).1 from rfl, et]
        rfl
      · rw [show (iterN (mkTrialHandler tl r m d nm) 1) = (iterNext (mkTrialHandler tl r m d nm)).1 from rfl, en]
        show ((r * (mkTrialHandler tl r m d nm).nStim : Nat) : Int) - 1 = _
        push_cast
        omega
  | succ k ih =>
      obtain ⟨t1, t2, t3, t4, _⟩ := ih
      obtain ⟨f1, f2, _, _, f5, _, f7, _, _, _⟩ :=
        iterN_frame (mkTrialHandler tl r m d nm) (k + 1)
      obtain ⟨g1, g2, g3⟩ := iterNext_eval (iterN (mkTrialHandler tl r m d nm) (k + 1))
        (mkTrialHandler tl r m d nm).nStim r k hs f5 (f2.trans rfl) t1 t2
      obtain ⟨en, et⟩ := iterNext_nRemaining (iterN (mkTrialHandler tl r m d nm) (k + 1))
      rw [f1, f7] at g3
      refine ⟨g1, g2, ?_, ?_, g3⟩
      · rw [show (iterN (mkTrialHandler tl r m d nm) (k + 2))
            = (iterNext (iterN (mkTrialHandler tl r m d nm) (k + 1))).1 from rfl, et, t3]
        push_cast
        omega
      · rw [show (iterN (mkTrialHandler tl r m d nm) (k + 2))
            = (iterNext (iterN (mkTrialHandler tl r m d nm) (k + 1))).1 from rfl, en, t4]
        push_cast
        omega

/-! ## C1: counter invariant and exhaustion count -/

/-- `nRemaining` after `k` iterator calls, for every `k` (also beyond
exhaustion). -/
theorem iterN_nRemaining_eq (tl : List TrialEntry) (r : Nat) (m : Method)
    (d : Nat → Nat) (nm : JSVal) (k : Nat) :
    (iterN (mkTrialHandler tl r m d nm) k).nRemaining
      = (r * (mkTrialHandler tl r m d nm).nStim : Int) - k := by
  match k with
  | 0 =>
      show ((r * (prepareTrialList (some tl)).length : Nat) : Int) = _
      have hlen : (prepareTrialList (some tl)).length
          = (mkTrialHandler tl r m d nm).nStim := rfl
      rw [hlen]
      push_cast
      omega
  | k + 1 =>
      obtain ⟨_, _, _, t4, _⟩ := iterN_state tl r m d nm k
      rw [t4]
      push_cast
      omega

/-- `thisN` after `k` iterator calls: the 0-based position, starting at -1. -/
theorem iterN_thisN_eq (tl : List TrialEntry) (r : Nat) (m : Method)
    (d : Nat → Nat) (nm : JSVal) (k : Nat) :
    (iterN (mkTrialHandler tl r m d nm) k).thisN = (k : Int) - 1 := by
  match k with
  | 0 => rfl
  | k + 1 =>
      obtain ⟨_, _, t3, _, _⟩ := iterN_state tl r m d nm k
      rw [t3]
      omega

/-- C1.  For every handler built with trial count `nStim` and repetition
count `nReps`: after any number `k` of `advance()` calls,
`completedCount + nRemaining = nReps * nStim`; every call decreases
`nRemaining` by exactly 1; `nRemaining` is exactly 0 after precisely
`nReps * nStim` calls; the `(nReps * nStim + 1)`-th call yields the
exhausted result, and no earlier call does. -/
theorem c1_counter_invariant (tl : List TrialEntry) (r : Nat) (m : Method)
    (d : Nat → Nat) (nm : JSVal) (k : Nat) :
    completedCount (iterN (mkTrialHandler tl r m d nm) k)
        + (iterN (mkTrialHandler tl r m d nm) k).nRemaining
        = (r * (mkTrialHandler tl r m d nm).nStim : Int) ∧
    (iterNext (iterN (mkTrialHandler tl r m d nm) k)).1.nRemaining
        = (iterN (mkTrialHandler tl r m d nm) k).nRemaining - 1 ∧
    (iterN (mkTrialHandler tl r m d nm)
        (r * (mkTrialHandler tl r m d nm).nStim)).nRemaining = 0 ∧
    (iterNext (iterN (mkTrialHandler tl r m d nm)
        (r * (mkTrialHandler tl r m d nm).nStim))).2 = none ∧
    (k < r * (mkTrialHandler tl r m d nm).nStim →
      (iterNext (iterN (mkTrialHandler tl r m d nm) k)).2 ≠ none) := by
  have hs : 0 < (mkTrialHandler tl r m d nm).nStim := mkTrialHandler_nStim_pos tl r m d nm
  refine ⟨?_, (iterNext_nRemaining _).1, ?_, ?_, ?_⟩
  · rw [iterN_nRemaining_eq]
    unfold completedCount
    rw [iterN_thisN_eq]
    omega
  · rw [iterN_nRemaining_eq]
    push_cast
    omega
  · obtain ⟨_, _, _, _, t5⟩ := iterN_state tl r m d nm
      (r * (mkTrialHandler tl r m d nm).nStim)
    rw [t5, if_neg]
    rw [Nat.mul_div_cancel r hs]
    omega
  · intro hk
    obtain ⟨_, _, _, _, t5⟩ := iterN_state tl r m d nm k
    rw [t5, if_pos ((Nat.div_lt_iff_lt_mul hs).2 (by omega))]
    simp

/-- Witness for C1 at `trialList = [{a: 1}]`, `nReps = 2`, `Sequential`,
`k = 1`. -/
theorem c1_counter_invariant_witness :
    (iterNext (iterN (mkTrialHandler [some [("a", JSVal.num 1)]] 2
      .sequential (fun _ => 0) .undef) 1)).2 ≠ none :=
  (c1_counter_invariant [some [("a", JSVal.num 1)]] 2 .sequential
    (fun _ => 0) .undef 1).2.2.2.2 (by decide)

/-! ## C2: the Sequential method -/

/-- Reading a cell of a replicated list. -/
theorem getD_replicate' (r : Nat) (x : List Nat) (i : Nat) (d : List Nat) :
    (List.replicate r x).getD i d = if i < r then x else d := by
  by_cases h : i < r
  · rw [if_pos h, List.getD_eq_getElem _ _ (by simpa using h), List.getElem_replicate]
  · rw [if_neg h, List.getD_eq_default _ _ (by simpa using h)]

/-- Flattening `r` copies of the identity row enumerates `k % s` for
`k < r * s`. -/
theorem flatten_replicate_range (r s : Nat) :
    (List.replicate r (List.range s)).flatten
      = (List.range (r * s)).map (· % s) := by
  induction r with
  | zero => simp
  | succ r ih =>
      rw [List.replicate_succ, List.flatten_cons, ih,
        show (r + 1) * s = s + r * s by ring, List.range_add, List.map_append]
      congr 1
      · have hid : (List.range s).map (· % s) = List.range s :=
          (List.map_congr_left
            (fun x hx => Nat.mod_eq_of_lt (List.mem_range.1 hx))).trans (List.map_id' _)
        exact hid.symm
      · rw [List.map_map]
        exact List.map_congr_left (fun x _ => by simp [Nat.add_mod_left])

/-- The sequential trial sequence is `nReps` copies of the identity row. -/
theorem trialSequence_sequential (tl : List TrialEntry) (r : Nat) (d : Nat → Nat)
    (nm : JSVal) :
    (mkTrialHandler tl r .sequential d nm).trialSequence
      = List.replicate r (List.range (mkTrialHandler tl r .sequential d nm).nStim) :=
  rfl

/-- C2.  For a non-empty trial list and positive repetition count, the
Sequential handler's ordering is `nReps` identical identity rows
(`nStim = trialList.length`), iterating yields exactly the `nReps`-fold
concatenation of the identity permutation (each position `k` producing the
trial at index `k % nStim`), and the call after those `nReps * nStim`
records is the exhausted result. -/
theorem c2_sequential_identity (tl : List TrialEntry) (r : Nat) (d : Nat → Nat)
    (nm : JSVal) (htl : tl ≠ []) (_hr : 0 < r) :
    (mkTrialHandler tl r .sequential d nm).nStim = tl.length ∧
    (mkTrialHandler tl r .sequential d nm).trialSequence
      = List.replicate r (List.range (mkTrialHandler tl r .sequential d nm).nStim) ∧
    (List.range (r * (mkTrialHandler tl r .sequential d nm).nStim)).map
        (fun k => (iterNext (iterN (mkTrialHandler tl r .sequential d nm) k)).2)
      = ((List.replicate r
            (List.range (mkTrialHandler tl r .sequential d nm).nStim)).flatten).map
          (fun (i : Nat) => some (TrialRef.ofEntry
            (jsIdxEntry (mkTrialHandler tl r .sequential d nm).trialList ((i : Nat) : Int)))) ∧
    (iterNext (iterN (mkTrialHandler tl r .sequential d nm)
        (r * (mkTrialHandler tl r .sequential d nm).nStim))).2 = none := by
  have hs : 0 < (mkTrialHandler tl r .sequential d nm).nStim :=
    mkTrialHandler_nStim_pos tl r .sequential d nm
  have hlen : (mkTrialHandler tl r .sequential d nm).nStim = tl.length := by
    show (prepareTrialList (some tl)).length = tl.length
    rw [show prepareTrialList (some tl) = if tl.isEmpty then [none] else tl from rfl,
      if_neg (by simpa [List.isEmpty_iff] using htl)]
  refine ⟨hlen, rfl, ?_, ?_⟩
  · rw [flatten_replicate_range, List.map_map]
    apply List.map_congr_left
    intro k hk
    have hklt : k < r * (mkTrialHandler tl r .sequential d nm).nStim := List.mem_range.1 hk
    obtain ⟨_, _, _, _, t5⟩ := iterN_state tl r .sequential d nm k
    rw [t5, if_pos ((Nat.div_lt_iff_lt_mul hs).2 (by omega))]
    have hrow : jsIdxRow (mkTrialHandler tl r .sequential d nm).trialSequence
        ((k / (mkTrialHandler tl r .sequential d nm).nStim : Nat) : Int)
        = List.range (mkTrialHandler tl r .sequential d nm).nStim := by
      rw [trialSequence_sequential]
      unfold jsIdxRow
      rw [if_neg (not_lt.2 (Int.natCast_nonneg _)), Int.toNat_natCast, getD_replicate',
        if_pos ((Nat.div_lt_iff_lt_mul hs).2 (by omega))]
    rw [hrow]
    have hcell : jsIdxNat (List.range (mkTrialHandler tl r .sequential d nm).nStim)
        ((k % (mkTrialHandler tl r .sequential d nm).nStim : Nat) : Int)
        = k % (mkTrialHandler tl r .sequential d nm).nStim := by
      unfold jsIdxNat
      rw [if_neg (not_lt.2 (Int.natCast_nonneg _)), Int.toNat_natCast,
        List.getD_eq_getElem _ _ (by simpa using Nat.mod_lt _ hs), List.getElem_range]
    rw [hcell]
    rfl
  · obtain ⟨_, _, _, _, t5⟩ := iterN_state tl r .sequential d nm
      (r * (mkTrialHandler tl r .sequential d nm).nStim)
    rw [t5, if_neg]
    rw [Nat.mul_div_cancel r hs]
    omega

/-- Witness for C2 at `trialList = [{a: 1}, {b: 2}]`, `nReps = 2`. -/
theorem c2_sequential_identity_witness :
    ([some [("a", JSVal.num 1)], some [("b", JSVal.num 2)]] : List TrialEntry) ≠ [] ∧
    0 < 2 ∧
    ((mkTrialHandler [some [("a", JSVal.num 1)], some [("b", JSVal.num 2)]] 2
        .sequential (fun _ => 0) .undef).nStim
      = ([some [("a", JSVal.num 1)], some [("b", JSVal.num 2)]] : List TrialEntry).length ∧
    (mkTrialHandler [some [("a", JSVal.num 1)], some [("b", JSVal.num 2)]] 2
        .sequential (fun _ => 0) .undef).trialSequence
      = List.replicate 2 (List.range (mkTrialHandler [some [("a", JSVal.num 1)],
          some [("b", JSVal.num 2)]] 2 .sequential (fun _ => 0) .undef).nStim) ∧
    (List.range (2 * (mkTrialHandler [some [("a", JSVal.num 1)],
        some [("b", JSVal.num 2)]] 2 .sequential (fun _ => 0) .undef).nStim)).map
        (fun k => (iterNext (iterN (mkTrialHandler [some [("a", JSVal.num 1)],
          some [("b", JSVal.num 2)]] 2 .sequential (fun _ => 0) .undef) k)).2)
      = ((List.replicate 2
            (List.range (mkTrialHandler [some [("a", JSVal.num 1)],
              some [("b", JSVal.num 2)]] 2 .sequential (fun _ => 0) .undef).nStim)).flatten).map
          (fun (i : Nat) => some (TrialRef.ofEntry
            (jsIdxEntry (mkTrialHandler [some [("a", JSVal.num 1)],
              some [("b", JSVal.num 2)]] 2 .sequential (fun _ => 0) .undef).trialList
              ((i : Nat) : Int)))) ∧
    (iterNext (iterN (mkTrialHandler [some [("a", JSVal.num 1)],
        some [("b", JSVal.num 2)]] 2 .sequential (fun _ => 0) .undef)
        (2 * (mkTrialHandler [some [("a", JSVal.num 1)],
          some [("b", JSVal.num 2)]] 2 .sequential (fun _ => 0) .undef).nStim))).2 = none) :=
  ⟨by decide, by decide,
    c2_sequential_identity [some [("a", JSVal.num 1)], some [("b", JSVal.num 2)]] 2
      (fun _ => 0) .undef (by decide) (by decide)⟩

/-! ## C3: exhaustion is sticky for the result, not for the counters -/

/-- If a call would start from a state with `thisRepN >= nReps`, it reports
the exhausted result and leaves `thisRepN >= nReps` (with `nReps`
unchanged). -/
theorem iterNext_done_of_rep (h : TrialHandler)
    (hge : (h.nReps : Int) ≤ h.thisRepN) :
    (iterNext h).2 = none ∧
    ((iterNext h).1.nReps : Int) ≤ (iterNext h).1.thisRepN ∧
    (iterNext h).1.nReps = h.nReps := by
  unfold iterNext
  dsimp only
  by_cases hw : h.thisTrialN + 1 = (h.nStim : Int)
  · rw [if_pos hw]
    dsimp only
    rw [if_pos (show (h.nReps : Int) ≤ h.thisRepN + 1 by omega)]
    exact ⟨rfl, by dsimp only; omega, rfl⟩
  · rw [if_neg hw]
    dsimp only
    rw [if_pos hge]
    exact ⟨rfl, by dsimp only; omega, rfl⟩

/-- A call that reports the exhausted result has ended in a state with
`thisRepN >= nReps`. -/
theorem iterNext_out_none (h : TrialHandler) (hnone : (iterNext h).2 = none) :
    ((iterNext h).1.nReps : Int) ≤ (iterNext h).1.thisRepN := by
  revert hnone
  unfold iterNext
  dsimp only
  by_cases hw : h.thisTrialN + 1 = (h.nStim : Int)
  · rw [if_pos hw]
    dsimp only
    by_cases hd : (h.nReps : Int) ≤ h.thisRepN + 1
    · rw [if_pos hd]
      intro _
      dsimp only
      exact hd
    · rw [if_neg hd]
      intro hx
      simp at hx
  · rw [if_neg hw]
    dsimp only
    by_cases hd : (h.nReps : Int) ≤ h.thisRepN
    · rw [if_pos hd]
      intro _
      dsimp only
      exact hd
    · rw [if_neg hd]
      intro hx
      simp at hx

/-- `thisRepN >= nReps` persists across any number of further calls. -/
theorem rep_ge_persists (h : TrialHandler) (hge : (h.nReps : Int) ≤ h.thisRepN)
    (m : Nat) : ((iterN h m).nReps : Int) ≤ (iterN h m).thisRepN := by
  induction m with
  | zero => exact hge
  | succ m ih => exact (iterNext_done_of_rep (iterN h m) ih).2.1

/-- C3 (amended).  Once a call has reported the exhausted result, every
further call again reports it and never yields a trial — but the calls are
not no-ops on the state: each still increments `thisN` and decrements
`nRemaining` (driving it negative). -/
theorem c3_exhaustion_reports_persist (h : TrialHandler) :
    ((iterNext h).2 = none →
      ∀ m, (iterNext (iterN (iterNext h).1 m)).2 = none) ∧
    (iterNext h).1.thisN = h.thisN + 1 ∧
    (iterNext h).1.nRemaining = h.nRemaining - 1 := by
  refine ⟨?_, (iterNext_nRemaining h).2, (iterNext_nRemaining h).1⟩
  intro hnone m
  exact (iterNext_done_of_rep _ (rep_ge_persists _ (iterNext_out_none h hnone) m)).1

/-- Witness for C3 (amended): a one-trial, one-repetition handler exhausts
at the second call, and the fifth call still reports exhaustion. -/
theorem c3_exhaustion_reports_persist_witness :
    (iterNext (iterN (iterNext (iterN (mkTrialHandler [some [("a", JSVal.num 1)]] 1
        .sequential (fun _ => 0) .undef) 1)).1 3)).2 = none :=
  (c3_exhaustion_reports_persist (iterN (mkTrialHandler [some [("a", JSVal.num 1)]] 1
      .sequential (fun _ => 0) .undef) 1)).1 (by decide) 3

/-- Counterexample to C3 as stated: after exhaustion has been reported (the
second call of a 1-trial, 1-repetition handler), the next call is NOT a
no-op on the cursor's state — `nRemaining` changes (and so do `thisN` and
`thisTrialN`). -/
theorem c3_counterexample :
    (iterNext (iterN (mkTrialHandler [some [("a", JSVal.num 1)]] 1
        .sequential (fun _ => 0) .undef) 1)).2 = none ∧
    (iterNext (iterN (mkTrialHandler [some [("a", JSVal.num 1)]] 1
        .sequential (fun _ => 0) .undef) 2)).1.nRemaining
      ≠ (iterN (mkTrialHandler [some [("a", JSVal.num 1)]] 1
        .sequential (fun _ => 0) .undef) 2).nRemaining := by
  decide

/-! ## C5: empty trial list and zero repetitions -/

/-- Counterexample to C5 as stated: a handler constructed with an EMPTY
trial list does not get `stimCount = 0` — the constructor replaces the empty
list by `[undefined]`, so `nStim = 1`, `nTotal = nReps`, and the first
advance produces a (undefined) trial rather than the exhausted result. -/
theorem c5_counterexample :
    (mkTrialHandler ([] : List TrialEntry) 2 .sequential (fun _ => 0) .undef).nTotal ≠ 0 ∧
    (mkTrialHandler ([] : List TrialEntry) 2 .sequential (fun _ => 0) .undef).nStim = 1 ∧
    (iterNext (mkTrialHandler ([] : List TrialEntry) 2
      .sequential (fun _ => 0) .undef)).2 ≠ none := by
  decide

/-- C5 (amended).  `stimCount = 0` is unreachable: an empty trial list is
replaced by `[undefined]`, so `nStim = 1`.  With `nReps = 0` (any method):
the total is 0, the ordering is the empty matrix, the very first advance
reports the exhausted result, and `nRemaining` starts at 0 — but it does not
stay there: every advance still decrements it, so after `k` calls it is
`-k`. -/
theorem c5_zero_reps (tl : List TrialEntry) (m : Method) (d : Nat → Nat)
    (nm : JSVal) (r k : Nat) :
    (mkTrialHandler tl 0 m d nm).nTotal = 0 ∧
    (mkTrialHandler tl 0 m d nm).trialSequence = [] ∧
    (iterNext (mkTrialHandler tl 0 m d nm)).2 = none ∧
    (mkTrialHandler tl 0 m d nm).nRemaining = 0 ∧
    (iterN (mkTrialHandler tl 0 m d nm) k).nRemaining = -(k : Int) ∧
    (mkTrialHandler ([] : List TrialEntry) r m d nm).nStim = 1 := by
  have hs : 0 < (mkTrialHandler tl 0 m d nm).nStim := mkTrialHandler_nStim_pos tl 0 m d nm
  refine ⟨Nat.zero_mul _, ?_, ?_, ?_, ?_, rfl⟩
  · show prepareSequence m (prepareTrialList (some tl)).length 0 d = []
    cases m <;> rfl
  · obtain ⟨_, _, e3⟩ := iterNext_eval_fresh (mkTrialHandler tl 0 m d nm)
      (mkTrialHandler tl 0 m d nm).nStim 0 hs rfl rfl rfl rfl
    rw [e3, if_neg (Nat.not_lt_zero (0 / (mkTrialHandler tl 0 m d nm).nStim))]
  · show ((0 * (prepareTrialList (some tl)).length : Nat) : Int) = 0
    push_cast
    omega
  · rw [iterN_nRemaining_eq]
    push_cast
    omega

/-! ## C6: bounded lookups and the broken getEarlierTrial -/

/-- C6.  `getTrial` returns `undefined` outside its (inclusive-upper-bound)
range and never raises; but `getEarlierTrial` ALWAYS raises a
`ReferenceError`, because its body calls the unbound free identifiers
`getFutureTrial` and `abs` instead of methods of the handler.  The claim
that no index-based lookup ever raises is therefore false on the code. -/
theorem c6_lookup_bounds (h : TrialHandler) (i n : Int) :
    ((i < 0 ∨ (h.nTotal : Int) < i) → getTrial h i = none) ∧
    getEarlierTrial h n
      = Except.error "ReferenceError: getFutureTrial is not defined" := by
  refine ⟨fun hi => ?_, rfl⟩
  unfold getTrial
  rw [if_pos hi]

/-- Witness for C6: a concrete out-of-range `getTrial` and the raising
`getEarlierTrial(-1)` on a 1-trial, 2-repetition handler. -/
theorem c6_lookup_bounds_witness :
    ((5 : Int) < 0 ∨ ((mkTrialHandler [some [("a", JSVal.num 1)]] 2
        .sequential (fun _ => 0) .undef).nTotal : Int) < 5) ∧
    getTrial (mkTrialHandler [some [("a", JSVal.num 1)]] 2
        .sequential (fun _ => 0) .undef) 5 = none ∧
    getEarlierTrial (mkTrialHandler [some [("a", JSVal.num 1)]] 2
        .sequential (fun _ => 0) .undef) (-1)
      = Except.error "ReferenceError: getFutureTrial is not defined" :=
  ⟨by decide,
    (c6_lookup_bounds (mkTrialHandler [some [("a", JSVal.num 1)]] 2
      .sequential (fun _ => 0) .undef) 5 (-1)).1 (by decide),
    (c6_lookup_bounds (mkTrialHandler [some [("a", JSVal.num 1)]] 2
      .sequential (fun _ => 0) .undef) 5 (-1)).2⟩

/-! ## C7: reserved-field collisions are NOT dropped -/

/-- C7 evaluation.  A trial record whose field is named `nRemaining` — a
reserved counter name — is NOT dropped during capture and NO warning is
emitted: the source tests `attribute in excludedAttributes`, and the JS `in`
operator checks the array's property keys ("0".."9", "length"), never its
values.  The field overwrites the snapshot's captured `nRemaining` (99
instead of the counter's value 1) and is recorded in `trialAttributes`. -/
theorem c7_reserved_field_not_dropped :
    (getSnapshot (mkTrialHandler [some [("nRemaining", JSVal.num 99)]] 1
        .sequential (fun _ => 0) .undef)).2.2 = [] ∧
    jsGet (getSnapshot (mkTrialHandler [some [("nRemaining", JSVal.num 99)]] 1
        .sequential (fun _ => 0) .undef)).2.1 "nRemaining" = JSVal.num 99 ∧
    (mkTrialHandler [some [("nRemaining", JSVal.num 99)]] 1
        .sequential (fun _ => 0) .undef).nRemaining = 1 ∧
    jsGet (getSnapshot (mkTrialHandler [some [("nRemaining", JSVal.num 99)]] 1
        .sequential (fun _ => 0) .undef)).2.1 "trialAttributes"
      = JSVal.strArr ["nRemaining"] := by
  decide

/-! ## C4: capture followed by restore -/

/-- C4 evaluation, on a 1-trial, 2-repetition handler after one producing
advance.  `getSnapshot` followed immediately by `fromSnapshot` restores all
eight numeric counters and the current trial unchanged — but the finished
flag is NOT preserved: restore reads `snapshot._finished`, a property the
capture never stored (it stored the flag under `finished`), so the flag goes
from `false` to JS `undefined`. -/
theorem c4_capture_restore_eval :
    (fromSnapshot (some (getSnapshot (iterN (mkTrialHandler
        [some [("a", JSVal.num 1)]] 2 .sequential (fun _ => 0) .undef) 1)).2.1)
        (getSnapshot (iterN (mkTrialHandler [some [("a", JSVal.num 1)]] 2
          .sequential (fun _ => 0) .undef) 1)).1).map
      (fun h3 => (h3.nStim, h3.nTotal, h3.nRemaining, h3.thisRepN, h3.thisTrialN,
        h3.thisN, h3.thisIndex, h3.ran))
      = Except.ok
        ((getSnapshot (iterN (mkTrialHandler [some [("a", JSVal.num 1)]] 2
          .sequential (fun _ => 0) .undef) 1)).1.nStim,
         (getSnapshot (iterN (mkTrialHandler [some [("a", JSVal.num 1)]] 2
          .sequential (fun _ => 0) .undef) 1)).1.nTotal,
         (getSnapshot (iterN (mkTrialHandler [some [("a", JSVal.num 1)]] 2
          .sequential (fun _ => 0) .undef) 1)).1.nRemaining,
         (getSnapshot (iterN (mkTrialHandler [some [("a", JSVal.num 1)]] 2
          .sequential (fun _ => 0) .undef) 1)).1.thisRepN,
         (getSnapshot (iterN (mkTrialHandler [some [("a", JSVal.num 1)]] 2
          .sequential (fun _ => 0) .undef) 1)).1.thisTrialN,
         (getSnapshot (iterN (mkTrialHandler [some [("a", JSVal.num 1)]] 2
          .sequential (fun _ => 0) .undef) 1)).1.thisN,
         (getSnapshot (iterN (mkTrialHandler [some [("a", JSVal.num 1)]] 2
          .sequential (fun _ => 0) .undef) 1)).1.thisIndex,
         (getSnapshot (iterN (mkTrialHandler [some [("a", JSVal.num 1)]] 2
          .sequential (fun _ => 0) .undef) 1)).1.ran) ∧
    (fromSnapshot (some (getSnapshot (iterN (mkTrialHandler
        [some [("a", JSVal.num 1)]] 2 .sequential (fun _ => 0) .undef) 1)).2.1)
        (getSnapshot (iterN (mkTrialHandler [some [("a", JSVal.num 1)]] 2
          .sequential (fun _ => 0) .undef) 1)).1).map TrialHandler.thisTrial
      = Except.ok (getSnapshot (iterN (mkTrialHandler [some [("a", JSVal.num 1)]] 2
          .sequential (fun _ => 0) .undef) 1)).1.thisTrial ∧
    (getSnapshot (iterN (mkTrialHandler [some [("a", JSVal.num 1)]] 2
        .sequential (fun _ => 0) .undef) 1)).1.finishedV = JSVal.bool false ∧
    (fromSnapshot (some (getSnapshot (iterN (mkTrialHandler
        [some [("a", JSVal.num 1)]] 2 .sequential (fun _ => 0) .undef) 1)).2.1)
        (getSnapshot (iterN (mkTrialHandler [some [("a", JSVal.num 1)]] 2
          .sequential (fun _ => 0) .undef) 1)).1).map TrialHandler.finishedV
      = Except.ok JSVal.undef :=
  ⟨rfl, rfl, rfl, rfl⟩

/-! ## C9: the look-ahead guard -/

/-- Counterexample to C9 as stated: on a fresh 1-trial, 2-repetition handler
(`thisIndex = 0`, `nRemaining = nTotal = 2`), `getFutureTrial(1)` satisfies
the claim's condition for a record (`thisIndex + 1` is in `[0, nTotal)` and
`1 <= nRemaining`) yet returns "no value" — the guard never checks the
claimed `[0, total)` window, and position 1 is past the end of the one-entry
trial list. -/
theorem c9_counterexample :
    0 ≤ (mkTrialHandler [some [("a", JSVal.num 1)]] 2
        .sequential (fun _ => 0) .undef).thisIndex + 1 ∧
    (mkTrialHandler [some [("a", JSVal.num 1)]] 2
        .sequential (fun _ => 0) .undef).thisIndex + 1
      < ((mkTrialHandler [some [("a", JSVal.num 1)]] 2
        .sequential (fun _ => 0) .undef).nTotal : Int) ∧
    1 ≤ (mkTrialHandler [some [("a", JSVal.num 1)]] 2
        .sequential (fun _ => 0) .undef).nRemaining ∧
    getFutureTrial (mkTrialHandler [some [("a", JSVal.num 1)]] 2
        .sequential (fun _ => 0) .undef) 1 = none := by
  decide

/-- C9 (amended).  `getFutureTrial(n)` touches no counter and yields a
record exactly when `thisIndex + n >= 0`, `n <= nRemaining`, AND the trial
list itself has a defined record at position `thisIndex + n`; the guard does
not involve the `[0, nTotal)` window, and in-guard positions at or beyond
`trialList.length` yield "no value".  It never raises. -/
theorem c9_peek_characterisation (h : TrialHandler) (n : Int) :
    getFutureTrial h n ≠ none ↔
      (0 ≤ h.thisIndex + n ∧ n ≤ h.nRemaining ∧
        jsIdxEntry h.trialList (h.thisIndex + n) ≠ none) := by
  unfold getFutureTrial
  by_cases hc : h.thisIndex + n < 0 ∨ h.nRemaining < n
  · rw [if_pos hc]
    constructor
    · intro hx
      exact absurd rfl hx
    · rintro ⟨a, b, _⟩
      rcases hc with hc | hc <;> omega
  · rw [if_neg hc]
    push_neg at hc
    exact ⟨fun hne => ⟨by omega, by omega, hne⟩, fun ⟨_, _, hne⟩ => hne⟩

/-! ## C10: snapshots are not insulated from the live cursor -/

/-- Counterexample to C10 as stated: capturing a snapshot (whose exposed
`finished` field is `false`) and then setting the live cursor's `finished`
flag to `true` rewrites the `finished` field of the already-captured
snapshot. -/
theorem c10_counterexample :
    jsGet ((getSnapshot (mkTrialHandler [some [("a", JSVal.num 1)]] 1
        .sequential (fun _ => 0) .undef)).1.snapshots.getD 0 []) "finished"
      = JSVal.bool false ∧
    jsGet ((setFinished (getSnapshot (mkTrialHandler [some [("a", JSVal.num 1)]] 1
        .sequential (fun _ => 0) .undef)).1 true).snapshots.getD 0 []) "finished"
      = JSVal.bool true := by
  decide

/-- C10 (amended).  Captured snapshots are untouched by advances, and a new
capture only appends; but the cursor's `finished` setter writes the new
value into the `finished` property of EVERY captured snapshot — that is the
one operation on the live cursor that mutates existing snapshots. -/
theorem c10_snapshot_frame (h : TrialHandler) (b : Bool) :
    (setFinished h b).snapshots
      = h.snapshots.map (fun s => jsSet s "finished" (JSVal.bool b)) ∧
    (setFinished h b).finishedV = JSVal.bool b ∧
    (iterNext h).1.snapshots = h.snapshots ∧
    (getSnapshot h).1.snapshots = h.snapshots ++ [(getSnapshot h).2.1] :=
  ⟨rfl, rfl, (iterNext_frame h).2.2.2.2.2.2.2.1, rfl⟩

/-! ## C8: FullRandom — flat shuffle, re-chunked -/

/-- A Fisher–Yates swap does not change the multiset of elements. -/
theorem fySwap_perm (l : List Nat) (i j : Nat) :
    (fySwap l i j).Perm l := by
  unfold fySwap
  split
  next a b heqi heqj =>
    rw [List.get?_eq_getElem?] at heqi heqj
    obtain ⟨hi, hai⟩ := List.getElem?_eq_some_iff.1 heqi
    obtain ⟨hj, hbj⟩ := List.getElem?_eq_some_iff.1 heqj
    subst hai
    subst hbj
    by_cases hij : i = j
    · subst hij
      rw [List.set_set]
      have hset : l.set i (l[i]) = l := by
        apply List.ext_getElem (by simp)
        intro m h1 h2
        rw [List.getElem_set]
        split
        next hmj => subst hmj; rfl
        next => rfl
      rw [hset]
    · rw [List.perm_iff_count]
      intro c
      have hjl : j < (l.set i (l[j])).length := by simpa using hj
      rw [List.count_set (l[i]) c (l.set i (l[j])) j hjl,
        List.count_set (l[j]) c l i hi,
        List.getElem_set_ne hij]
      have hA : (l[i] == c) = true → 1 ≤ l.count c := fun hbeq =>
        List.count_pos_iff.2 (by rw [← eq_of_beq hbeq]; exact List.getElem_mem hi)
      have hB : (l[j] == c) = true → 1 ≤ l.count c := fun hbeq =>
        List.count_pos_iff.2 (by rw [← eq_of_beq hbeq]; exact List.getElem_mem hj)
      by_cases h1 : (l[i] == c) = true <;> by_cases h2 : (l[j] == c) = true
      · rw [if_pos h1, if_pos h2]
        have := hA h1
        omega
      · rw [if_pos h1, if_neg h2]
        have := hA h1
        omega
      · rw [if_neg h1, if_pos h2]
        omega
      · rw [if_neg h1, if_neg h2]
        omega
  next => exact List.Perm.refl _

/-- The driver loop of the shuffle permutes its input, whatever the draws. -/
theorem fyLoop_perm (draws : Nat → Nat) :
    ∀ (i k : Nat) (l : List Nat), (fyLoop draws k i l).Perm l := by
  intro i
  induction i with
  | zero => intro k l; exact List.Perm.refl _
  | succ i ih =>
      intro k l
      exact (ih (k + 1) _).trans (fySwap_perm l (i + 1) (draws k % (i + 2)))

/-- The modelled `util.shuffle` is a permutation of its input. -/
theorem fisherYates_perm (l : List Nat) (draws : Nat → Nat) :
    (fisherYates l draws).Perm l :=
  fyLoop_perm draws (l.length - 1) 0 l

/-- The flat FullRandom sequence has length `nReps * nStim`. -/
theorem flatten_replicate_length (r s : Nat) :
    ((List.replicate r (List.range s)).flatten).length = r * s := by
  induction r with
  | zero => simp
  | succ r ih =>
      rw [List.replicate_succ, List.flatten_cons, List.length_append, ih,
        List.length_range, Nat.succ_mul]
      omega

/-- Re-chunking by slices of `s` reassembles a prefix of the list. -/
theorem flatten_chunks (l : List α) (s r : Nat) :
    ((List.range r).map (fun i => (l.drop (i * s)).take s)).flatten
      = l.take (r * s) := by
  induction r with
  | zero => simp
  | succ r ih =>
      rw [List.range_succ, List.map_append, List.flatten_append, ih]
      simp only [List.map_cons, List.map_nil, List.flatten_cons, List.flatten_nil,
        List.append_nil]
      rw [← List.take_add]
      congr 1
      ring

/-- C8.  The FullRandom ordering is exactly: concatenate `nReps` copies of
the identity row, shuffle the flat sequence once, slice it back into `nReps`
rows of `nStim`.  Consequently the concatenation of all rows is a
permutation of `nReps` copies of `[0..nStim)` (the multiset union is
preserved), every row has length `nStim` and there are `nReps` rows — while
a single row can hold a given index zero or several times, as the concrete
`nStim = nReps = 2` run shows (its first row is `[0,0]`). -/
theorem c8_full_random (s r : Nat) (d : Nat → Nat) :
    prepareSequence .fullRandom s r d
      = (List.range r).map (fun i =>
          ((fisherYates ((List.replicate r (List.range s)).flatten) d).drop (i * s)).take s) ∧
    (prepareSequence .fullRandom s r d).flatten.Perm
      ((List.replicate r (List.range s)).flatten) ∧
    (prepareSequence .fullRandom s r d).map List.length = List.replicate r s ∧
    (prepareSequence .fullRandom s r d).length = r ∧
    ((prepareSequence .fullRandom 2 2 (fun _ => 1)).getD 0 []).count 0 = 2 ∧
    ((prepareSequence .fullRandom 2 2 (fun _ => 1)).getD 0 []).count 1 = 0 := by
  have hperm := fisherYates_perm ((List.replicate r (List.range s)).flatten) d
  have hslen : (fisherYates ((List.replicate r (List.range s)).flatten) d).length
      = r * s := hperm.length_eq.trans (flatten_replicate_length r s)
  refine ⟨rfl, ?_, ?_, ?_, by decide, by decide⟩
  · show ((List.range r).map (fun i =>
        ((fisherYates ((List.replicate r (List.range s)).flatten) d).drop (i * s)).take s)).flatten.Perm _
    rw [flatten_chunks, ← hslen, List.take_length]
    exact hperm
  · apply List.eq_replicate_iff.2
    constructor
    · simp [prepareSequence]
    · intro x hx
      rw [show prepareSequence .fullRandom s r d = (List.range r).map (fun i =>
          ((fisherYates ((List.replicate r (List.range s)).flatten) d).drop (i * s)).take s)
          from rfl, List.map_map] at hx
      obtain ⟨i, hi, hlen⟩ := List.mem_map.1 hx
      have hir : i < r := List.mem_range.1 hi
      rw [← hlen]
      show (((fisherYates ((List.replicate r (List.range s)).flatten) d).drop (i * s)).take s).length = s
      rw [List.length_take, List.length_drop, hslen]
      have hmul : i * s + s ≤ r * s := by
        have h1 : (i + 1) * s ≤ r * s := Nat.mul_le_mul_right s hir
        have h2 : (i + 1) * s = i * s + s := by ring
        omega
      omega
  · show ((List.range r).map _).length = r
    simp
